import Mathlib

/-!
Verification of the `fixedlength` Go library (fixed-width line unmarshalling)
against its specification.

The development shallowly embeds the library's core:

* `parseInt` / `parseUint` / `parseBool` embed the error behaviour of Go's
  `strconv.ParseInt`, `strconv.ParseUint` and `strconv.ParseBool` for base 10
  (machine integers are modelled as unbounded `Int`/`Nat` with the explicit
  bit-width range checks that `strconv` performs).
* `setFieldValue` embeds the reflection-based field coercer of the library
  (`setFieldValue` in the Go source) as a pure function from the field's type,
  its current value and the sliced string to the new field value plus an
  optional error.  Go's in-place mutation is made explicit: the returned value
  is the field's state after the call, also when an error is returned.
* `rangeFromTag`, `sliceRange` and `unmarshalFields`/`decodeField` model the
  range-tag parser, the line slicer and the `Unmarshal` record mapper, which
  are part of the library but not among the provided source files; they are
  modelled from the specification (see their doc comments).

Float32/Float64 fields (IEEE floating point) are outside the embedded type
universe; no claim under verification depends on them.
-/

namespace Fixedlength

/-- Numeric value of a list of decimal digit characters, most significant
first (the accumulator loop of Go's `strconv` digit scan). -/
def digitsVal (l : List Char) : Nat :=
  l.foldl (fun acc c => acc * 10 + (c.toNat - 48)) 0

/-- Cause of a `strconv` numeric parse failure: `malformed` is Go's
`ErrSyntax` (empty/non-numeric input), `overflow` is Go's `ErrRange`
(value outside the requested bit width). -/
inductive NumErr : Type where
  | malformed
  | overflow
deriving DecidableEq, Repr

/-- Embedding of Go `strconv.ParseUint(s, 10, bitSize)`: no sign is accepted,
the input must be a nonempty run of decimal digits, and the value must fit in
`bitSize` bits. -/
def parseUint (s : List Char) (bitSize : Nat) : Except NumErr Nat :=
  if s.isEmpty || !(s.all Char.isDigit) then .error .malformed
  else
    let n := digitsVal s
    if n < 2 ^ bitSize then .ok n else .error .overflow

/-- Embedding of Go `strconv.ParseInt(s, 10, bitSize)`: an optional leading
sign followed by a nonempty run of decimal digits; the signed value must lie
in `[-2^(bitSize-1), 2^(bitSize-1) - 1]`. -/
def parseInt (s : List Char) (bitSize : Nat) : Except NumErr Int :=
  match s with
  | [] => .error .malformed
  | c :: rest =>
    let p : Bool × List Char :=
      if c = '-' then (true, rest)
      else if c = '+' then (false, rest)
      else (false, c :: rest)
    if p.2.isEmpty || !(p.2.all Char.isDigit) then .error .malformed
    else
      let v : Int := if p.1 then -(digitsVal p.2 : Int) else (digitsVal p.2 : Int)
      if -(2 ^ (bitSize - 1) : Int) ≤ v ∧ v < 2 ^ (bitSize - 1) then .ok v
      else .error .overflow

/-- Embedding of Go `strconv.ParseBool`: the canonical truthy/falsy token
sets; anything else is a parse failure (`none`). -/
def parseBool (s : String) : Option Bool :=
  if s = "1" || s = "t" || s = "T" || s = "true" || s = "TRUE" || s = "True" then
    some true
  else if s = "0" || s = "f" || s = "F" || s = "false" || s = "FALSE" || s = "False" then
    some false
  else none

/-- Sign-accepting integer parse with no width limit, for range-tag
components (Go `strconv.Atoi` without the word-size cutoff, which tag
components never reach). -/
def parseIntAny (s : List Char) : Option Int :=
  match s with
  | [] => none
  | c :: rest =>
    let p : Bool × List Char :=
      if c = '-' then (true, rest)
      else if c = '+' then (false, rest)
      else (false, c :: rest)
    if p.2.isEmpty || !(p.2.all Char.isDigit) then none
    else some (if p.1 then -(digitsVal p.2 : Int) else (digitsVal p.2 : Int))

/-- The reflect kinds of the primitive cases of the Go `setFieldValue`
switch (Float32/Float64 omitted, see the file comment). -/
inductive PrimKind : Type where
  | kint | kint8 | kint16 | kint32 | kint64
  | kuint | kuint8 | kuint16 | kuint32 | kuint64
  | kstring | kbool
deriving DecidableEq, Repr

/-- A validated Range Descriptor: half-open byte interval `[start, stop)`;
`stop = none` is the `-1` "rest of line" sentinel. -/
structure RangeDesc : Type where
  start : Nat
  stop : Option Nat
deriving DecidableEq, Repr

mutual
/-- A Go type as seen by the mapper.  `um` records whether the type (via its
pointer receiver) implements the `Unmarshaler` interface; for `prim` the
`um` flag models a defined type whose underlying kind is primitive.
`strukt` is a struct type together with its field schema. -/
inductive GoType : Type where
  | prim (k : PrimKind) (um : Bool)
  | ptr (elem : GoType)
  | strukt (um : Bool) (fields : Fields)

/-- Field schema of a struct type: each field carries its parsed range tag
(`none`: no mapping declaration, the field is skipped) and its type. -/
inductive Fields : Type where
  | nil
  | cons (tag : Option RangeDesc) (ty : GoType) (rest : Fields)
end

mutual
/-- A Go value: integers are unbounded (the parse functions enforce the
bit-width ranges exactly as `strconv` does); `vPtrNil` is a nil pointer;
`vStruct` holds the field values of a struct in declaration order. -/
inductive GoValue : Type where
  | vI (n : Int)
  | vU (n : Nat)
  | vStr (s : String)
  | vBool (b : Bool)
  | vPtrNil
  | vPtr (v : GoValue)
  | vStruct (fields : Values)

/-- A list of field values. -/
inductive Values : Type where
  | nil
  | cons (v : GoValue) (rest : Values)
end

/-- The zero value of a primitive kind. -/
def zeroPrim : PrimKind → GoValue
  | .kint | .kint8 | .kint16 | .kint32 | .kint64 => .vI 0
  | .kuint | .kuint8 | .kuint16 | .kuint32 | .kuint64 => .vU 0
  | .kstring => .vStr ""
  | .kbool => .vBool false

mutual
/-- Go's zero value of a type (`reflect.Zero` / `reflect.New` initial
pointee). -/
def zeroValue : GoType → GoValue
  | .prim k _ => zeroPrim k
  | .ptr _ => .vPtrNil
  | .strukt _ fs => .vStruct (zeroFields fs)

/-- Zero values of a whole field schema. -/
def zeroFields : Fields → Values
  | .nil => .nil
  | .cons _ ty rest => .cons (zeroValue ty) (zeroFields rest)
end

mutual
/-- Embedding of `reflect.Value.IsZero`: deep check that a value is the zero
value of its type. -/
def isZero : GoValue → Bool
  | .vI n => n = 0
  | .vU n => n = 0
  | .vStr s => s = ""
  | .vBool b => b = false
  | .vPtrNil => true
  | .vPtr _ => false
  | .vStruct fs => allZero fs

/-- `isZero` on every value of a list. -/
def allZero : Values → Bool
  | .nil => true
  | .cons v rest => isZero v && allZero rest
end

/-- The error kinds of the library.  `invalidInt` models
`errors.Join(ErrInvalidIntValue, err)` and keeps the `strconv` cause;
`fieldWrapped` models the field-identifying wrapping added by the record
mapper on the first failure. -/
inductive GoErr : Type where
  | invalidBool
  | invalidInt (cause : NumErr)
  | invalidFloat
  | unsupportedKind
  | customFailure
  | invalidRangeDeclaration
  | fieldWrapped (idx : Nat) (cause : GoErr)
deriving DecidableEq, Repr

/-- A custom decoder (`Unmarshaler.Unmarshal`): from the raw slice to either
a failure or the value the decoder leaves in its receiver. -/
def CustomDec : Type := String → Except Unit GoValue

/-- The pointee of a pointer field after the nil-allocation step of the Go
`Ptr` case: the existing pointee if the pointer is set, otherwise the fresh
zero pointee created by `reflect.New`. -/
def derefOrZero (elem : GoType) : GoValue → GoValue
  | .vPtr v => v
  | _ => zeroValue elem

/-- Embedding of the Go `setFieldValue(field, value)` switch (the provided
source file), parameterised by the custom decoder `cd` used for types that
implement `Unmarshaler`.  The result is the field's state after the call
together with the returned error (`none` = success); on a primitive parse
error the field is unchanged, matching that Go only calls `SetInt` etc.
after a successful parse.  Note the source passes bit size 10 — not the
word size — for the `Int` and `Uint` kinds. -/
def setFieldValue (cd : CustomDec) : GoType → GoValue → String → GoValue × Option GoErr
  | .prim .kint _, cur, value =>
    match parseInt value.data 10 with
    | .error e => (cur, some (.invalidInt e))
    | .ok n => (.vI n, none)
  | .prim .kint8 _, cur, value =>
    match parseInt value.data 8 with
    | .error e => (cur, some (.invalidInt e))
    | .ok n => (.vI n, none)
  | .prim .kint16 _, cur, value =>
    match parseInt value.data 16 with
    | .error e => (cur, some (.invalidInt e))
    | .ok n => (.vI n, none)
  | .prim .kint32 _, cur, value =>
    match parseInt value.data 32 with
    | .error e => (cur, some (.invalidInt e))
    | .ok n => (.vI n, none)
  | .prim .kint64 _, cur, value =>
    match parseInt value.data 64 with
    | .error e => (cur, some (.invalidInt e))
    | .ok n => (.vI n, none)
  | .prim .kuint _, cur, value =>
    match parseUint value.data 10 with
    | .error e => (cur, some (.invalidInt e))
    | .ok n => (.vU n, none)
  | .prim .kuint8 _, cur, value =>
    match parseUint value.data 8 with
    | .error e => (cur, some (.invalidInt e))
    | .ok n => (.vU n, none)
  | .prim .kuint16 _, cur, value =>
    match parseUint value.data 16 with
    | .error e => (cur, some (.invalidInt e))
    | .ok n => (.vU n, none)
  | .prim .kuint32 _, cur, value =>
    match parseUint value.data 32 with
    | .error e => (cur, some (.invalidInt e))
    | .ok n => (.vU n, none)
  | .prim .kuint64 _, cur, value =>
    match parseUint value.data 64 with
    | .error e => (cur, some (.invalidInt e))
    | .ok n => (.vU n, none)
  | .prim .kstring _, _, value => (.vStr value, none)
  | .prim .kbool _, cur, value =>
    match parseBool value with
    | none => (cur, some .invalidBool)
    | some b => (.vBool b, none)
  | .ptr elem, cur, value =>
    match setFieldValue cd elem (derefOrZero elem cur) value with
    | (ev, some e) => (.vPtr ev, some e)
    | (ev, none) => if isZero ev then (.vPtrNil, none) else (.vPtr ev, none)
  | .strukt um _, cur, value =>
    if um then
      match cd value with
      | .error _ => (cur, some .customFailure)
      | .ok v => (v, none)
    else (cur, some .unsupportedKind)

/-- Splitting a character list at every comma (Go `strings.Split(s, ",")`):
always returns at least one component, and the empty string yields one empty
component. -/
def splitComma : List Char → List (List Char)
  | [] => [[]]
  | c :: rest =>
    if c = ',' then [] :: splitComma rest
    else
      match splitComma rest with
      | [] => [[c]]
      | g :: gs => (c :: g) :: gs

/-- Modelled from the spec: the Range Descriptor parser (§4.1) is part of the
library but not among the provided source files.  Given a declaration string
`"start,end"`: `start` must parse as a non-negative integer; `end` must parse
as an integer, where `-1` is the rest-of-line sentinel; an empty declaration,
non-numeric components, `start == end`, `start > end` (unless `end` is the
sentinel) and any `end` less than `-1` are rejected with
`invalidRangeDeclaration`. -/
def rangeFromTag (tag : String) : Except GoErr RangeDesc :=
  match splitComma tag.data with
  | [a, b] =>
    match parseIntAny a, parseIntAny b with
    | some s, some e =>
      if s < 0 then .error .invalidRangeDeclaration
      else if e = -1 then .ok ⟨s.toNat, none⟩
      else if e < -1 then .error .invalidRangeDeclaration
      else if s < e then .ok ⟨s.toNat, some e.toNat⟩
      else .error .invalidRangeDeclaration
    | _, _ => .error .invalidRangeDeclaration
  | _ => .error .invalidRangeDeclaration

/-- Modelled from the spec: the Line Slicer (§4.2) is part of the library but
not among the provided source files.  `line[start:stop)` (or `line[start:]`
for the sentinel), with out-of-range offsets clamped to the available length
per the spec's recommended policy. -/
def sliceRange (line : String) (r : RangeDesc) : String :=
  match r.stop with
  | none => ⟨line.data.drop r.start⟩
  | some e => ⟨(line.data.take e).drop r.start⟩

/-- Head of a value list with a default. -/
def headD : Values → GoValue → GoValue
  | .nil, d => d
  | .cons v _, _ => v

/-- Tail of a value list (`nil` on `nil`). -/
def tailV : Values → Values
  | .nil => .nil
  | .cons _ rest => rest

/-- The `n`-th value of a list, with a default. -/
def getV : Nat → Values → GoValue → GoValue
  | 0, vs, d => headD vs d
  | n + 1, vs, d => getV n (tailV vs) d

/-- Dropping the first `n` values of a list. -/
def dropV : Nat → Values → Values
  | 0, vs => vs
  | n + 1, vs => dropV n (tailV vs)

/-- The `n`-th entry of a field schema. -/
def getF : Nat → Fields → Option (Option RangeDesc × GoType)
  | _, .nil => none
  | 0, .cons tag ty _ => some (tag, ty)
  | n + 1, .cons _ _ rest => getF n rest

mutual
/-- Modelled from the spec: the Record Mapper (`Unmarshal`, §4.4) is part of
the library but not among the provided source files.  It walks the field
schema in declared order with the current field values and the running field
index; a field with no range declaration is skipped (left at its current
value); otherwise the field is decoded via `decodeField` and on the first
failure the walk stops and the error is wrapped with the field's index,
leaving all later fields unassigned (fail-fast). -/
def unmarshalFields (cd : CustomDec) (line : String) :
    Fields → Values → Nat → Values × Option GoErr
  | .nil, _, _ => (.nil, none)
  | .cons tag ty rest, vs, idx =>
    match tag with
    | none =>
      let r := unmarshalFields cd line rest (tailV vs) (idx + 1)
      (.cons (headD vs (zeroValue ty)) r.1, r.2)
    | some rg =>
      match decodeField cd line rg ty (headD vs (zeroValue ty)) with
      | (v, some e) => (.cons v (tailV vs), some (.fieldWrapped idx e))
      | (v, none) =>
        let r := unmarshalFields cd line rest (tailV vs) (idx + 1)
        (.cons v r.1, r.2)

/-- Modelled from the spec: decoding of one declared field (§4.3 dispatch).
A struct-typed field that does not implement `Unmarshaler` recursively
invokes the Record Mapper on its own schema with the *same full raw line*
(not the field's sub-slice); every other type slices the line by the field's
Range Descriptor and coerces via `setFieldValue` (which itself dispatches to
the custom decoder for `Unmarshaler` implementors reached there). -/
def decodeField (cd : CustomDec) (line : String) (rg : RangeDesc) :
    GoType → GoValue → GoValue × Option GoErr
  | .strukt false fs, cur =>
    let vs :=
      match cur with
      | .vStruct vs => vs
      | _ => zeroFields fs
    let r := unmarshalFields cd line fs vs 0
    (.vStruct r.1, r.2)
  | .strukt true fs, cur => setFieldValue cd (.strukt true fs) cur (sliceRange line rg)
  | .prim k um, cur => setFieldValue cd (.prim k um) cur (sliceRange line rg)
  | .ptr elem, cur => setFieldValue cd (.ptr elem) cur (sliceRange line rg)
end

/-- Modelled from the spec: the `Unmarshal` entrypoint on a target struct
type — decode `line` into a record of type `.strukt um fs` starting from the
zero record. -/
def unmarshal (cd : CustomDec) (line : String) (fs : Fields) : Values × Option GoErr :=
  unmarshalFields cd line fs (zeroFields fs) 0

/-! ## General lemmas -/

mutual
/-- The deep zero check accepts the zero value of every type. -/
theorem isZero_zeroValue : ∀ t : GoType, isZero (zeroValue t) = true
  | .prim k _ => by cases k <;> rfl
  | .ptr _ => rfl
  | .strukt _ fs => by
    simpa [zeroValue, isZero] using allZero_zeroFields fs

/-- The deep zero check accepts the zero values of a whole field schema. -/
theorem allZero_zeroFields : ∀ fs : Fields, allZero (zeroFields fs) = true
  | .nil => rfl
  | .cons _ ty rest => by
    simp [zeroFields, allZero, isZero_zeroValue ty, allZero_zeroFields rest]
end

/-- Every error produced by the record mapper at one nesting level is either
absent or wrapped with the failing field's index. -/
theorem unmarshalFields_err_shape (cd : CustomDec) (line : String) :
    ∀ (fs : Fields) (vs : Values) (idx : Nat),
      (unmarshalFields cd line fs vs idx).2 = none ∨
      ∃ j e, (unmarshalFields cd line fs vs idx).2 = some (.fieldWrapped j e)
  | .nil, _, _ => Or.inl rfl
  | .cons tag ty rest, vs, idx => by
    have ih := unmarshalFields_err_shape cd line rest (tailV vs) (idx + 1)
    cases tag with
    | none => simpa [unmarshalFields] using ih
    | some rg =>
      rcases hd : decodeField cd line rg ty (headD vs (zeroValue ty)) with ⟨v, err⟩
      cases err with
      | none => simpa [unmarshalFields, hd] using ih
      | some e =>
        right
        exact ⟨idx, e, by simp [unmarshalFields, hd]⟩

/-! ## Claims -/

/-- C1: the claim says every integer kind is parsed at its declared bit
width, and in particular that an `int`/`uint` field accepts every base-10
value representable at the platform word width.  The source instead passes
bit size 10 (a copy of the base argument) to `strconv.ParseInt`/`ParseUint`
for the `Int` and `Uint` kinds, so an `int` field rejects `"1000"` and a
`uint` field rejects `"1024"` with the `InvalidIntValue` kind (range
overflow), while an `int64` field accepts `"1000"` as the other width cases
do. -/
theorem C1_int_word_width_bug :
    setFieldValue (fun _ => .error ()) (.prim .kint false) (.vI 0) "1000"
      = (.vI 0, some (.invalidInt .overflow))
    ∧ setFieldValue (fun _ => .error ()) (.prim .kuint false) (.vU 0) "1024"
      = (.vU 0, some (.invalidInt .overflow))
    ∧ setFieldValue (fun _ => .error ()) (.prim .kint64 false) (.vI 0) "1000"
      = (.vI 1000, none) := ⟨rfl, rfl, rfl⟩

/-- C2 counterexample: a defined type of `reflect` kind `String` that
implements `Unmarshaler` (here a decoder that would set the field to
`vBool true`) is handled by the built-in `String` case of the kind switch —
the field becomes `vStr "x"` and the custom decoder is never consulted, so
the claim that the custom decoder takes precedence for every underlying kind
is false. -/
theorem C2_counterexample :
    setFieldValue (fun _ => .ok (.vBool true)) (.prim .kstring true) (.vStr "") "x"
      = (.vStr "x", none)
    ∧ (fun _ => .ok (.vBool true) : CustomDec) "x" = .ok (.vBool true)
    ∧ ((GoValue.vStr "x", (none : Option GoErr)) ≠ (.vBool true, none)) :=
  ⟨rfl, rfl, by simp⟩

/-- C2 amended: a type implementing `Unmarshaler` takes precedence over
built-in coercion only when its `reflect` kind reaches the switch's default
case (e.g. struct kinds): there the custom decoder is invoked on the raw
slice and is authoritative for success and failure, also when reached
through a pointer's pointee; but a field whose kind has a dedicated switch
case (e.g. `String`) is handled by built-in coercion even if its type
implements `Unmarshaler`. -/
theorem C2_custom_decoder_dispatch (cd : CustomDec) (fs : Fields) (cur : GoValue)
    (v : String) (w : GoValue) :
    (cd v = .ok w → setFieldValue cd (.strukt true fs) cur v = (w, none))
    ∧ (cd v = .error () → setFieldValue cd (.strukt true fs) cur v
        = (cur, some .customFailure))
    ∧ (∀ um : Bool, setFieldValue cd (.prim .kstring um) cur v = (.vStr v, none))
    ∧ (cd v = .ok w → isZero w = false →
        setFieldValue cd (.ptr (.strukt true fs)) cur v = (.vPtr w, none)) := by
  refine ⟨fun h => ?_, fun h => ?_, fun um => rfl, fun h hz => ?_⟩
  · simp [setFieldValue, h]
  · simp [setFieldValue, h]
  · simp [setFieldValue, h, hz]

/-- C2 witness: with a decoder returning `vU 7`, a struct-kind type
implementing `Unmarshaler` is decoded by the custom decoder. -/
theorem C2_custom_decoder_dispatch_witness :
    setFieldValue (fun _ => .ok (.vU 7)) (.strukt true .nil) (.vStruct .nil) "ab"
      = (.vU 7, none) :=
  (C2_custom_decoder_dispatch (fun _ => .ok (.vU 7)) .nil (.vStruct .nil) "ab"
    (.vU 7)).1 rfl

/-- C3: for a pointer field, the slice is coerced into the pointee type (a
nil pointer first receives a fresh zero pointee), and on success the pointer
is nil exactly when the coerced pointee value is the pointee type's zero
value, otherwise it holds the coerced value. -/
theorem C3_ptr_zero_absent (cd : CustomDec) (elem : GoType) (cur : GoValue) (v : String)
    (h : (setFieldValue cd elem (derefOrZero elem cur) v).2 = none) :
    setFieldValue cd (.ptr elem) cur v
      = (if isZero (setFieldValue cd elem (derefOrZero elem cur) v).1
          then GoValue.vPtrNil
          else .vPtr (setFieldValue cd elem (derefOrZero elem cur) v).1,
         none) := by
  rcases hres : setFieldValue cd elem (derefOrZero elem cur) v with ⟨ev, err⟩
  rw [hres] at h
  simp only at h
  subst h
  simp only [setFieldValue, hres]
  split <;> rfl

/-- C3 witness: an `*int8` field decoded from `"7"` ends non-nil holding 7;
the hypothesis (inner coercion succeeds) holds at this input. -/
theorem C3_ptr_zero_absent_witness :
    setFieldValue (fun _ => .error ()) (.ptr (.prim .kint8 false)) .vPtrNil "7"
      = (.vPtr (.vI 7), none) := by
  have h := C3_ptr_zero_absent (fun _ => .error ()) (.prim .kint8 false) .vPtrNil "7" rfl
  simpa using h

/-- C10: a nil pointer field first receives a freshly allocated zero
pointee; if the inner coercion then fails, the error is returned while the
field keeps the fresh non-nil pointer (holding whatever state the inner
coercion left) — the nil state is not restored. -/
theorem C10_ptr_err_keeps_alloc (cd : CustomDec) (elem : GoType) (v : String) (e : GoErr)
    (h : (setFieldValue cd elem (zeroValue elem) v).2 = some e) :
    setFieldValue cd (.ptr elem) .vPtrNil v
      = (.vPtr (setFieldValue cd elem (zeroValue elem) v).1, some e) := by
  rcases hres : setFieldValue cd elem (zeroValue elem) v with ⟨ev, err⟩
  rw [hres] at h
  simp only at h
  subst h
  have hderef : derefOrZero elem .vPtrNil = zeroValue elem := rfl
  simp only [setFieldValue, hderef, hres]

/-- C10 witness: decoding `"xy"` into a nil `*int8` fails with the integer
error while the field is left holding a non-nil pointer to the zero
pointee. -/
theorem C10_ptr_err_keeps_alloc_witness :
    setFieldValue (fun _ => .error ()) (.ptr (.prim .kint8 false)) .vPtrNil "xy"
      = (.vPtr (.vI 0), some (.invalidInt .malformed)) := by
  have h := C10_ptr_err_keeps_alloc (fun _ => .error ()) (.prim .kint8 false) "xy"
    (.invalidInt .malformed) rfl
  simpa using h

/-- C4: a struct-typed field without a custom decoder is decoded by
recursively running the record mapper on its own field schema against the
*same full raw line* — the result does not depend on the field's own Range
Descriptor, it equals the nested recursion on the full line, and the field
never fails with the unsupported-kind error (any failure is a wrapped nested
field error). -/
theorem C4_nested_struct_full_line (cd : CustomDec) (line : String) (rg rg' : RangeDesc)
    (fs : Fields) (vs : Values) :
    decodeField cd line rg (.strukt false fs) (.vStruct vs)
      = decodeField cd line rg' (.strukt false fs) (.vStruct vs)
    ∧ decodeField cd line rg (.strukt false fs) (.vStruct vs)
      = (.vStruct (unmarshalFields cd line fs vs 0).1, (unmarshalFields cd line fs vs 0).2)
    ∧ (decodeField cd line rg (.strukt false fs) (.vStruct vs)).2 ≠ some .unsupportedKind := by
  refine ⟨rfl, rfl, ?_⟩
  rcases unmarshalFields_err_shape cd line fs vs 0 with h | ⟨j, e, h⟩ <;>
    simp [decodeField, h]

/-- C5: a string field is assigned the sliced bytes verbatim, with no
trimming, and the coercion always succeeds. -/
theorem C5_string_verbatim (cd : CustomDec) (um : Bool) (cur : GoValue) (v : String) :
    setFieldValue cd (.prim .kstring um) cur v = (.vStr v, none) := rfl

/-- C6: a bool field is parsed with Go's canonical truthy/falsy token sets
(`1 t T true TRUE True` / `0 f F false FALSE False`); any other slice fails
with the invalid-boolean error kind, leaving the field unchanged. -/
theorem C6_bool_tokens (cd : CustomDec) (um : Bool) (cur : GoValue) (v : String) :
    setFieldValue cd (.prim .kbool um) cur v =
      if v ∈ ["1", "t", "T", "true", "TRUE", "True"] then (.vBool true, none)
      else if v ∈ ["0", "f", "F", "false", "FALSE", "False"] then (.vBool false, none)
      else (cur, some .invalidBool) := by
  have hpb : parseBool v =
      if v ∈ ["1", "t", "T", "true", "TRUE", "True"] then some true
      else if v ∈ ["0", "f", "F", "false", "FALSE", "False"] then some false
      else none := by
    simp only [parseBool, List.mem_cons, List.not_mem_nil, or_false,
      Bool.or_eq_true, decide_eq_true_eq, or_assoc]
  rw [show setFieldValue cd (.prim .kbool um) cur v =
      (match parseBool v with
        | none => (cur, some .invalidBool)
        | some b => (.vBool b, none)) from rfl, hpb]
  split_ifs <;> rfl

/-! ## Range-tag parser lemmas -/

/-- A comma-free list is a single split component. -/
theorem splitComma_no_comma : ∀ b : List Char, ',' ∉ b → splitComma b = [b]
  | [], _ => rfl
  | c :: rest, h => by
    have hc : ¬ c = ',' := fun hh => h (hh ▸ List.mem_cons_self c rest)
    have ih := splitComma_no_comma rest (fun hm => h (List.mem_cons_of_mem c hm))
    simp [splitComma, hc, ih]

/-- Splitting at the first comma after a comma-free prefix. -/
theorem splitComma_append : ∀ (a b : List Char), ',' ∉ a →
    splitComma (a ++ ',' :: b) = a :: splitComma b
  | [], _, _ => by simp [splitComma]
  | c :: rest, b, h => by
    have hc : ¬ c = ',' := fun hh => h (hh ▸ List.mem_cons_self c rest)
    have ih := splitComma_append rest b (fun hm => h (List.mem_cons_of_mem c hm))
    simp [splitComma, hc, ih]

/-- Decimal digit runs contain no comma. -/
theorem no_comma_of_digits (a : List Char) (h : a.all Char.isDigit = true) : ',' ∉ a := by
  intro hm
  have := (List.all_eq_true.mp h) ',' hm
  exact absurd this (by decide)

/-- A nonempty run of decimal digits parses to its numeric value. -/
theorem parseIntAny_digits : ∀ a : List Char, a.all Char.isDigit = true → a ≠ [] →
    parseIntAny a = some (digitsVal a)
  | [], _, h => absurd rfl h
  | c :: rest, hall, _ => by
    have hc : c.isDigit = true := by
      simp only [List.all_cons, Bool.and_eq_true] at hall
      exact hall.1
    have hminus : ¬ c = '-' := by
      intro hh; rw [hh] at hc; exact absurd hc (by decide)
    have hplus : ¬ c = '+' := by
      intro hh; rw [hh] at hc; exact absurd hc (by decide)
    simp [parseIntAny, hminus, hplus, hall]

/-- C7: for every declaration built from decimal components with values
`s < e`, the Range Descriptor parser returns `{start := s, stop := e}`;
with the literal `-1` as second component it returns `s` with the
rest-of-line sentinel. -/
theorem C7_range_ok (a b : List Char) (s e : Nat)
    (ha : a.all Char.isDigit = true) (ha' : a ≠ [])
    (hb : b.all Char.isDigit = true) (hb' : b ≠ [])
    (hs : digitsVal a = s) (he : digitsVal b = e) (hlt : s < e) :
    rangeFromTag ⟨a ++ ',' :: b⟩ = .ok ⟨s, some e⟩
    ∧ rangeFromTag ⟨a ++ [',', '-', '1']⟩ = .ok ⟨s, none⟩ := by
  have hca := no_comma_of_digits a ha
  have hsplit : splitComma (a ++ ',' :: b) = [a, b] := by
    rw [splitComma_append a b hca, splitComma_no_comma b (no_comma_of_digits b hb)]
  have hsplit2 : splitComma (a ++ [',', '-', '1']) = [a, ['-', '1']] := by
    rw [show a ++ [',', '-', '1'] = a ++ ',' :: ['-', '1'] from rfl,
      splitComma_append a _ hca, splitComma_no_comma ['-', '1'] (by decide)]
  constructor
  · simp only [rangeFromTag, hsplit, parseIntAny_digits a ha ha',
      parseIntAny_digits b hb hb', hs, he]
    have h1 : ¬ ((s : Int) < 0) := by omega
    have h2 : ¬ ((e : Int) = -1) := by omega
    have h3 : ¬ ((e : Int) < -1) := by omega
    have h4 : (s : Int) < (e : Int) := by omega
    simp [h1, h2, h3, h4]
  · simp only [rangeFromTag, hsplit2, parseIntAny_digits a ha ha', hs]
    rw [show parseIntAny ['-', '1'] = some (-1) from rfl]
    have h1 : ¬ ((s : Int) < 0) := by omega
    simp [h1]

/-- C7 witness: `"2,5"` parses to `[2,5)` and `"2,-1"` to `[2, rest)`. -/
theorem C7_range_ok_witness :
    rangeFromTag "2,5" = .ok ⟨2, some 5⟩ ∧ rangeFromTag "2,-1" = .ok ⟨2, none⟩ :=
  C7_range_ok ['2'] ['5'] 2 5 (by decide) (by decide) (by decide) (by decide)
    rfl rfl (by decide)

/-- C8: Range Descriptor parsing rejects, with the invalid-range error kind:
the empty declaration; a non-numeric first or second component; equal
components; a reversed range whose second component is not the `-1`
sentinel; and any second component below `-1`.  (The parser is a pure
schema-build-time function: it consumes only the declaration string, no
line.) -/
theorem C8_range_reject :
    rangeFromTag ⟨[]⟩ = .error .invalidRangeDeclaration
    ∧ (∀ a b : List Char, ',' ∉ a → ',' ∉ b → parseIntAny a = none →
        rangeFromTag ⟨a ++ ',' :: b⟩ = .error .invalidRangeDeclaration)
    ∧ (∀ a b : List Char, ',' ∉ a → ',' ∉ b → parseIntAny b = none →
        rangeFromTag ⟨a ++ ',' :: b⟩ = .error .invalidRangeDeclaration)
    ∧ (∀ (a b : List Char) (s : Int), ',' ∉ a → ',' ∉ b →
        parseIntAny a = some s → parseIntAny b = some s →
        rangeFromTag ⟨a ++ ',' :: b⟩ = .error .invalidRangeDeclaration)
    ∧ (∀ (a b : List Char) (s e : Int), ',' ∉ a → ',' ∉ b →
        parseIntAny a = some s → parseIntAny b = some e → e < s → ¬ e = -1 →
        rangeFromTag ⟨a ++ ',' :: b⟩ = .error .invalidRangeDeclaration)
    ∧ (∀ (a b : List Char) (s e : Int), ',' ∉ a → ',' ∉ b →
        parseIntAny a = some s → parseIntAny b = some e → e < -1 →
        rangeFromTag ⟨a ++ ',' :: b⟩ = .error .invalidRangeDeclaration) := by
  refine ⟨rfl, ?_, ?_, ?_, ?_, ?_⟩
  · intro a b hca hcb hpa
    have hsplit : splitComma (a ++ ',' :: b) = [a, b] := by
      rw [splitComma_append a b hca, splitComma_no_comma b hcb]
    simp only [rangeFromTag, hsplit, hpa]
  · intro a b hca hcb hpb
    have hsplit : splitComma (a ++ ',' :: b) = [a, b] := by
      rw [splitComma_append a b hca, splitComma_no_comma b hcb]
    simp only [rangeFromTag, hsplit, hpb]
    rcases parseIntAny a with _ | s <;> rfl
  · intro a b s hca hcb hpa hpb
    have hsplit : splitComma (a ++ ',' :: b) = [a, b] := by
      rw [splitComma_append a b hca, splitComma_no_comma b hcb]
    simp only [rangeFromTag, hsplit, hpa, hpb]
    by_cases h1 : s < 0
    · simp [h1]
    · have h2 : ¬ (s = -1) := by omega
      have h3 : ¬ (s < -1) := by omega
      have h4 : ¬ (s < s) := by omega
      simp [h1, h2, h3, h4]
  · intro a b s e hca hcb hpa hpb hlt hne
    have hsplit : splitComma (a ++ ',' :: b) = [a, b] := by
      rw [splitComma_append a b hca, splitComma_no_comma b hcb]
    simp only [rangeFromTag, hsplit, hpa, hpb]
    by_cases h1 : s < 0
    · simp [h1]
    · by_cases h3 : e < -1
      · simp [h1, hne, h3]
      · have h4 : ¬ (s < e) := by omega
        simp [h1, hne, h3, h4]
  · intro a b s e hca hcb hpa hpb hlt
    have hsplit : splitComma (a ++ ',' :: b) = [a, b] := by
      rw [splitComma_append a b hca, splitComma_no_comma b hcb]
    simp only [rangeFromTag, hsplit, hpa, hpb]
    have h2 : ¬ (e = -1) := by omega
    by_cases h1 : s < 0
    · simp [h1]
    · simp [h1, h2, hlt]

/-- C8 witness: `""`, `"a,5"`, `"5,x"`, `"5,5"`, `"7,3"` and `"3,-2"` are
all rejected. -/
theorem C8_range_reject_witness :
    rangeFromTag "" = .error .invalidRangeDeclaration
    ∧ rangeFromTag "a,5" = .error .invalidRangeDeclaration
    ∧ rangeFromTag "5,x" = .error .invalidRangeDeclaration
    ∧ rangeFromTag "5,5" = .error .invalidRangeDeclaration
    ∧ rangeFromTag "7,3" = .error .invalidRangeDeclaration
    ∧ rangeFromTag "3,-2" = .error .invalidRangeDeclaration :=
  ⟨C8_range_reject.1,
   C8_range_reject.2.1 ['a'] ['5'] (by decide) (by decide) rfl,
   C8_range_reject.2.2.1 ['5'] ['x'] (by decide) (by decide) rfl,
   C8_range_reject.2.2.2.1 ['5'] ['5'] 5 (by decide) (by decide) rfl rfl,
   C8_range_reject.2.2.2.2.1 ['7'] ['3'] 7 3 (by decide) (by decide) rfl rfl
     (by decide) (by decide),
   C8_range_reject.2.2.2.2.2 ['3'] ['-', '2'] 3 (-2) (by decide) (by decide) rfl rfl
     (by decide)⟩

/-- C9: when the record mapper returns an error, that error wraps the index
of one declared field together with the underlying cause; every declared
field before it decoded successfully (so it is the *first* failure, visited
in declared order), and every field after it still holds its entry value —
later fields are neither visited nor assigned. -/
theorem C9_fail_fast (cd : CustomDec) (line : String) :
    ∀ (fs : Fields) (vs : Values) (idx j : Nat) (e : GoErr),
      (unmarshalFields cd line fs vs idx).2 = some (.fieldWrapped j e) →
      ∃ (k : Nat) (rg : RangeDesc) (ty : GoType),
        j = idx + k
        ∧ getF k fs = some (some rg, ty)
        ∧ (decodeField cd line rg ty (getV k vs (zeroValue ty))).2 = some e
        ∧ (∀ m, m < k → ∀ rg' ty', getF m fs = some (some rg', ty') →
            (decodeField cd line rg' ty' (getV m vs (zeroValue ty'))).2 = none)
        ∧ dropV (k + 1) (unmarshalFields cd line fs vs idx).1 = dropV (k + 1) vs
  | .nil, vs, idx, j, e, h => by simp [unmarshalFields] at h
  | .cons tag ty rest, vs, idx, j, e, h => by
    cases tag with
    | none =>
      have hrec : (unmarshalFields cd line rest (tailV vs) (idx + 1)).2
          = some (.fieldWrapped j e) := by
        simpa [unmarshalFields] using h
      obtain ⟨k, rg, ty', hj, hget, hdec, hfst, hdrop⟩ :=
        C9_fail_fast cd line rest (tailV vs) (idx + 1) j e hrec
      refine ⟨k + 1, rg, ty', by omega, hget, hdec, ?_, ?_⟩
      · intro m hm rg' ty'' hget'
        cases m with
        | zero => simp [getF] at hget'
        | succ m' => exact hfst m' (by omega) rg' ty'' hget'
      · have hfst1 : (unmarshalFields cd line (.cons none ty rest) vs idx).1
            = .cons (headD vs (zeroValue ty))
                (unmarshalFields cd line rest (tailV vs) (idx + 1)).1 := by
          simp [unmarshalFields]
        rw [hfst1]
        exact hdrop
    | some rg =>
      rcases hd : decodeField cd line rg ty (headD vs (zeroValue ty)) with ⟨v, err⟩
      cases err with
      | some e0 =>
        have h2 : idx = j ∧ e0 = e := by
          simpa [unmarshalFields, hd] using h
        refine ⟨0, rg, ty, by omega, rfl, ?_, by omega, ?_⟩
        · rw [show getV 0 vs (zeroValue ty) = headD vs (zeroValue ty) from rfl, hd, h2.2]
        · have hfst1 : (unmarshalFields cd line (.cons (some rg) ty rest) vs idx).1
              = .cons v (tailV vs) := by
            simp [unmarshalFields, hd]
          rw [hfst1]
          rfl
      | none =>
        have hrec : (unmarshalFields cd line rest (tailV vs) (idx + 1)).2
            = some (.fieldWrapped j e) := by
          simpa [unmarshalFields, hd] using h
        obtain ⟨k, rg1, ty', hj, hget, hdec, hfst, hdrop⟩ :=
          C9_fail_fast cd line rest (tailV vs) (idx + 1) j e hrec
        refine ⟨k + 1, rg1, ty', by omega, hget, hdec, ?_, ?_⟩
        · intro m hm rg' ty'' hget'
          cases m with
          | zero =>
            have hinj : rg' = rg ∧ ty'' = ty := by
              have heq : (some (some rg, ty) : Option (Option RangeDesc × GoType))
                  = some (some rg', ty'') := by rw [← hget']; rfl
              simp at heq
              exact ⟨heq.1.symm, heq.2.symm⟩
            rw [hinj.1, hinj.2,
              show getV 0 vs (zeroValue ty) = headD vs (zeroValue ty) from rfl, hd]
          | succ m' => exact hfst m' (by omega) rg' ty'' hget'
        · have hfst1 : (unmarshalFields cd line (.cons (some rg) ty rest) vs idx).1
              = .cons v (unmarshalFields cd line rest (tailV vs) (idx + 1)).1 := by
            simp [unmarshalFields, hd]
          rw [hfst1]
          exact hdrop

/-- Example schema for the fail-fast witness: a bool field over bytes
`[0,2)` followed by a string field over `[2,4)`. -/
def exSchema : Fields :=
  .cons (some ⟨0, some 2⟩) (.prim .kbool false)
    (.cons (some ⟨2, some 4⟩) (.prim .kstring false) .nil)

/-- Entry values for the fail-fast witness. -/
def exValues : Values := .cons (.vBool true) (.cons (.vStr "zz") .nil)

/-- A custom decoder that always fails (never reached in the witness). -/
def exDec : CustomDec := fun _ => .error ()

/-- C9 witness: on line `"XXab"` the bool field at `[0,2)` fails first
(slice `"XX"` is not a boolean token); the returned error wraps field 0 with
the invalid-boolean cause and the string field keeps its entry value. -/
theorem C9_fail_fast_witness :
    ∃ (k : Nat) (rg : RangeDesc) (ty : GoType),
      0 = 0 + k
      ∧ getF k exSchema = some (some rg, ty)
      ∧ (decodeField exDec "XXab" rg ty (getV k exValues (zeroValue ty))).2
          = some .invalidBool
      ∧ (∀ m, m < k → ∀ rg' ty', getF m exSchema = some (some rg', ty') →
          (decodeField exDec "XXab" rg' ty' (getV m exValues (zeroValue ty'))).2 = none)
      ∧ dropV (k + 1) (unmarshalFields exDec "XXab" exSchema exValues 0).1
          = dropV (k + 1) exValues :=
  C9_fail_fast exDec "XXab" exSchema exValues 0 0 .invalidBool rfl

end Fixedlength
